import Mathlib

/-!
# LangCompiler: the execution engine of `main.go`

A shallow embedding of `executeCode` (main.go, lines 120-224) and of the
language registry `languageConfigs` (lines 39-65).

The Go function talks to the operating system: it reads the clock, creates and
removes a directory, writes a file and spawns processes.  Here the operating
system is an explicit environment `Env` (what the clock shows, which filesystem
calls fail, what every spawned process prints and how it exits) and an explicit
`World` (the filesystem and the supply of fresh contexts).  `executeCode`
returns the response, the world it leaves behind and the list of system calls
it issued, in order.
-/

namespace LangCompiler

/-! ## Data model (main.go, lines 21-37) -/

/-- The request body: `CodeRequest` of main.go. -/
structure CodeRequest where
  Code : String
  Language : String
  deriving DecidableEq, Repr

/-- The response body: `CodeResponse` of main.go.  A field left out of a Go
composite literal is the empty string. -/
structure CodeResponse where
  Output : String := ""
  Error : String := ""
  deriving DecidableEq, Repr

/-- The toolchain recipe of one language: `LanguageConfig` of main.go. -/
structure LanguageConfig where
  Compiler : String
  Filename : String
  RunCmd : String
  BuildArgs : List String
  MainClass : String := ""
  deriving DecidableEq, Repr

/-- The registry `languageConfigs` (main.go, lines 39-65), a Go map literal,
as an association list with the four keys in the order of the source. -/
def languageConfigs : List (String × LanguageConfig) :=
  [ ("python",
      { Compiler := "python3", Filename := "main.py", RunCmd := "python3",
        BuildArgs := ["-c", "import py_compile; py_compile.compile(\x27\x7b\x7d\x27)"] }),
    ("cpp",
      { Compiler := "g++", Filename := "main.cpp", RunCmd := "./a.out",
        BuildArgs := ["-o", "a.out"] }),
    ("javascript",
      { Compiler := "node", Filename := "main.js", RunCmd := "node",
        BuildArgs := [] }),
    ("java",
      { Compiler := "javac", Filename := "Main.java", RunCmd := "java",
        BuildArgs := [], MainClass := "Main" }) ]

/-- The keys of the registry. -/
def registeredLanguages : List String := languageConfigs.map Prod.fst

/-! ## Library functions used by `executeCode` -/

/-- Splits a path at every `/`: the first component and the list of the
remaining ones (a path without `/` is its own first component). -/
def splitSlash : List Char → List Char × List (List Char)
  | [] => ([], [])
  | c :: cs =>
    if c = '/' then ([], (splitSlash cs).1 :: (splitSlash cs).2)
    else (c :: (splitSlash cs).1, (splitSlash cs).2)

/-- The component pass of Go's `filepath.Clean`: empty components and `.` are
dropped, `..` removes the component before it (it is dropped at the root of a
rooted path and kept at the start of a relative one).  `stack` holds the
components kept so far, last first. -/
def cleanParts (rooted : Bool) : List (List Char) → List (List Char) → List (List Char)
  | stack, [] => stack.reverse
  | stack, p :: ps =>
    if p = [] ∨ p = ['.'] then cleanParts rooted stack ps
    else if p = ['.', '.'] then
      match stack with
      | top :: rest =>
        if top = ['.', '.'] then cleanParts rooted (p :: stack) ps
        else cleanParts rooted rest ps
      | [] => if rooted then cleanParts rooted [] ps else cleanParts rooted [p] ps
    else cleanParts rooted (p :: stack) ps

/-- Components joined with `/`. -/
def joinSlash : List (List Char) → List Char
  | [] => []
  | [p] => p
  | p :: q :: ps => p ++ '/' :: joinSlash (q :: ps)

/-- Go's `filepath.Clean` on Unix, on the characters of the path: the cleaned
components joined with `/`, after a `/` for a rooted path, and `.` when that
is empty. -/
def cleanChars (p : List Char) : List Char :=
  let rooted := p.head? = some '/'
  let parts := cleanParts rooted [] ((splitSlash p).1 :: (splitSlash p).2)
  let out := (if rooted then ['/'] else []) ++ joinSlash parts
  if out = [] then ['.'] else out

/-- Go's `filepath.Join`: the elements from the first non-empty one on are
joined with `/` and the result is cleaned; no non-empty element gives `""`. -/
def filepathJoin (elem : List String) : String :=
  match (elem.dropWhile (fun e => decide (e = ""))).map String.data with
  | [] => ""
  | es => String.mk (cleanChars (joinSlash es))

/-- The verb `%d` of `fmt.Sprintf` on an `int64`: the decimal digits, after a
minus sign for a negative number. -/
def sprintfD : Int → String
  | Int.ofNat m => String.mk (Nat.toDigits 10 m)
  | Int.negSucc m => String.mk ('-' :: Nat.toDigits 10 (m + 1))

/-- The scan of `strings.Replace s old new (-1)` for a non-empty `old`: every
occurrence of `old`, leftmost first and not overlapping, becomes `new`.  `skip`
counts the characters of a replaced occurrence that are still to be passed. -/
def replaceScan (old new : List Char) : Nat → List Char → List Char
  | _, [] => []
  | skip + 1, _ :: cs => replaceScan old new skip cs
  | 0, c :: cs =>
    if old.isPrefixOf (c :: cs) then new ++ replaceScan old new (old.length - 1) cs
    else c :: replaceScan old new 0 cs

/-- Go's `strings.Replace s old new (-1)`.  With an empty `old`, `new` is put
before every character and at the end. -/
def stringsReplaceAll (s old new : String) : String :=
  if old.data = [] then String.mk (new.data ++ s.data.flatMap (fun c => c :: new.data))
  else String.mk (replaceScan old.data new.data 0 s.data)

/-! ## The operating system -/

/-- The filesystem: the directories and the files (path and content). -/
structure FS where
  dirs : List String
  files : List (String × String)
  deriving DecidableEq, Repr

/-- Whether `q` is `p` or lies below the directory `p`. -/
def pathUnder (p q : String) : Bool :=
  decide (q = p) || (p.data ++ ['/']).isPrefixOf q.data

/-- Whether something exists at the path. -/
def FS.pathExists (fs : FS) (p : String) : Bool :=
  fs.dirs.contains p || (fs.files.map Prod.fst).contains p

/-- The effect of a successful `os.MkdirAll`: the directory is there (its
parent, `/tmp` for `executeCode`, is taken to be there already). -/
def FS.mkdirAll (fs : FS) (p : String) : FS :=
  { fs with dirs := if fs.dirs.contains p then fs.dirs else p :: fs.dirs }

/-- The effect of a successful `os.WriteFile`: the file holds the data. -/
def FS.writeFile (fs : FS) (p data : String) : FS :=
  { fs with files := (p, data) :: fs.files.filter (fun f => decide (f.1 ≠ p)) }

/-- The effect of a successful `os.RemoveAll`: the path and everything below
it is gone. -/
def FS.removeAll (fs : FS) (p : String) : FS :=
  { dirs := fs.dirs.filter (fun d => !pathUnder p d),
    files := fs.files.filter (fun f => !pathUnder p f.1) }

/-- The effect of a failing `os.RemoveAll`, which removes what it can: of the
path and everything below it, the entries in `kept` stay and the rest is
gone. -/
def FS.removeAllBut (fs : FS) (p : String) (kept : List String) : FS :=
  { dirs := fs.dirs.filter (fun d => !pathUnder p d || kept.contains d),
    files := fs.files.filter (fun f => !pathUnder p f.1 || kept.contains f.1) }

/-- A `context.Context` made by `context.WithTimeout`: which context it is and
the duration of its deadline, in nanoseconds. -/
structure Context where
  id : Nat
  timeout : Nat
  deriving DecidableEq, Repr

/-- Go's `time.Second`, in nanoseconds. -/
def timeSecond : Nat := 1000000000

/-- The fields of `syscall.SysProcAttr` that main.go sets. -/
structure SysProcAttr where
  Setpgid : Bool
  Pgid : Nat
  deriving DecidableEq, Repr

/-- An `exec.Cmd`: the context it is bound to, the program, the argument vector
(the program name first), the working directory and the process attributes. -/
structure Cmd where
  ctx : Context
  Path : String
  Args : List String
  Dir : String := ""
  SysProcAttr : Option SysProcAttr := none
  deriving DecidableEq, Repr

/-- Go's `exec.CommandContext ctx name arg...`. -/
def commandContext (ctx : Context) (name : String) (arg : List String) : Cmd :=
  { ctx := ctx, Path := name, Args := name :: arg }

/-- What `Cmd.CombinedOutput` gives back: the captured standard output and
standard error, the error (`none` is Go's `nil`, `some e` an error whose text
is `e`), and the filesystem the process leaves behind. -/
structure ProcResult where
  output : String
  err : Option String
  fs : FS

/-- The environment of one call of `executeCode`. -/
structure Env where
  /-- The value of `time.Now().UnixNano()`. -/
  now : Int
  /-- The error of `os.MkdirAll` in a filesystem state, `none` on success. -/
  mkdirAllErr : FS → String → Option String
  /-- The error of `os.WriteFile` in a filesystem state, `none` on success. -/
  writeFileErr : FS → String → String → Option String
  /-- The failure of `os.RemoveAll` in a filesystem state: `none` on success,
  else the text of the error and the entries that could not be removed. -/
  removeAllErr : FS → String → Option (String × List String)
  /-- The run of a process to its end, from a filesystem state. -/
  run : Cmd → FS → ProcResult

/-- The filesystem and the number of the next fresh context. -/
structure World where
  fs : FS
  nextCtx : Nat

/-- Which variable of main.go holds the command: `buildCmd` or `runCmd`. -/
inductive Step where
  | build
  | run
  deriving DecidableEq, Repr

/-- The system calls of `executeCode`, each with its result. -/
inductive Event where
  | mkdirAll (path : String) (perm : Nat) (err : Option String)
  | removeAll (path : String)
  | writeFile (path data : String) (perm : Nat) (err : Option String)
  | withTimeout (ctx : Context)
  | cancel (ctx : Context)
  | spawn (step : Step) (cmd : Cmd) (output : String) (err : Option String)
  deriving DecidableEq, Repr

/-- What a call of `executeCode` amounts to. -/
structure Outcome where
  resp : CodeResponse
  world : World
  events : List Event

/-! ## `executeCode` (main.go, lines 120-224) -/

/-- The workspace path of line 121:
`filepath.Join("/tmp", fmt.Sprintf("execution_%d", time.Now().UnixNano()))`. -/
def execDirOf (now : Int) : String :=
  filepathJoin ["/tmp", "execution_" ++ sprintfD now]

/-- The text of `fmt.Sprintf("Execution error: %v\n%s", err, string(output))`. -/
def executionError (err output : String) : String :=
  "Execution error: " ++ err ++ "\n" ++ output

/-- The text of `fmt.Sprintf("Compilation error: %v\n%s", err, string(output))`. -/
def compilationError (err output : String) : String :=
  "Compilation error: " ++ err ++ "\n" ++ output

/-- Lines 140-223 of `executeCode`: the branches on the language, from the
first `if` after `defer cancel()` to the last `return`. -/
def executeSteps (env : Env) (w : World) (code : CodeRequest) (config : LanguageConfig)
    (execDir codePath : String) (ctx : Context) : Outcome :=
  if code.Language = "javascript" then
    -- lines 140-149
    let runCmd : Cmd := { commandContext ctx config.RunCmd [codePath] with Dir := execDir }
    let r := env.run runCmd w.fs
    match r.err with
    | some err =>
      ⟨{ Error := executionError err r.output }, { w with fs := r.fs },
        [Event.spawn Step.run runCmd r.output (some err)]⟩
    | none =>
      ⟨{ Output := r.output }, { w with fs := r.fs },
        [Event.spawn Step.run runCmd r.output none]⟩
  else if code.Language = "python" then
    -- lines 152-163
    let runCmd : Cmd := { commandContext ctx config.RunCmd [codePath] with Dir := execDir }
    let r := env.run runCmd w.fs
    match r.err with
    | some err =>
      ⟨{ Error := executionError err r.output }, { w with fs := r.fs },
        [Event.spawn Step.run runCmd r.output (some err)]⟩
    | none =>
      ⟨{ Output := r.output }, { w with fs := r.fs },
        [Event.spawn Step.run runCmd r.output none]⟩
  else if code.Language = "java" then
    -- lines 166-189
    let buildCmd : Cmd := { commandContext ctx config.Compiler [codePath] with Dir := execDir }
    let b := env.run buildCmd w.fs
    match b.err with
    | some err =>
      ⟨{ Error := compilationError err b.output }, { w with fs := b.fs },
        [Event.spawn Step.build buildCmd b.output (some err)]⟩
    | none =>
      let runCmd : Cmd :=
        { commandContext ctx config.RunCmd [config.MainClass] with
          Dir := execDir, SysProcAttr := some { Setpgid := true, Pgid := 0 } }
      let r := env.run runCmd b.fs
      match r.err with
      | some err =>
        ⟨{ Error := executionError err r.output }, { w with fs := r.fs },
          [Event.spawn Step.build buildCmd b.output none,
           Event.spawn Step.run runCmd r.output (some err)]⟩
      | none =>
        ⟨{ Output := r.output }, { w with fs := r.fs },
          [Event.spawn Step.build buildCmd b.output none,
           Event.spawn Step.run runCmd r.output none]⟩
  else
    -- lines 192-223
    let buildArgs := config.BuildArgs.map (fun arg => stringsReplaceAll arg "\x7b\x7d" codePath)
    let buildArgs := if code.Language = "cpp" then codePath :: buildArgs else buildArgs
    let buildCmd : Cmd :=
      { commandContext ctx config.Compiler [] with
        Dir := execDir, Args := config.Compiler :: buildArgs }
    let b := env.run buildCmd w.fs
    match b.err with
    | some err =>
      ⟨{ Error := compilationError err b.output }, { w with fs := b.fs },
        [Event.spawn Step.build buildCmd b.output (some err)]⟩
    | none =>
      let runCmd : Cmd :=
        { commandContext ctx (filepathJoin [execDir, config.RunCmd]) [] with
          Dir := execDir, SysProcAttr := some { Setpgid := true, Pgid := 0 } }
      let r := env.run runCmd b.fs
      match r.err with
      | some err =>
        ⟨{ Error := executionError err r.output }, { w with fs := r.fs },
          [Event.spawn Step.build buildCmd b.output none,
           Event.spawn Step.run runCmd r.output (some err)]⟩
      | none =>
        ⟨{ Output := r.output }, { w with fs := r.fs },
          [Event.spawn Step.build buildCmd b.output none,
           Event.spawn Step.run runCmd r.output none]⟩

/-- Lines 127-223 of `executeCode`: what runs between `defer os.RemoveAll(execDir)`
and the return.  The deferred `cancel()` of line 138 is the last event of every
path that passed line 137. -/
def executeInDir (env : Env) (w : World) (code : CodeRequest) (execDir : String) : Outcome :=
  match languageConfigs.lookup code.Language with
  | none => ⟨{ Error := "Unsupported language" }, w, []⟩
  | some config =>
    let codePath := filepathJoin [execDir, config.Filename]
    match env.writeFileErr w.fs codePath code.Code with
    | some err =>
      ⟨{ Error := "Failed to write code file" }, w,
        [Event.writeFile codePath code.Code 0o644 (some err)]⟩
    | none =>
      let w1 : World := { w with fs := w.fs.writeFile codePath code.Code }
      let ctx : Context := { id := w1.nextCtx, timeout := 10 * timeSecond }
      let w2 : World := { w1 with nextCtx := w1.nextCtx + 1 }
      let r := executeSteps env w2 code config execDir codePath ctx
      ⟨r.resp, r.world,
        Event.writeFile codePath code.Code 0o644 none :: Event.withTimeout ctx ::
          (r.events ++ [Event.cancel ctx])⟩

/-- The call `os.RemoveAll(path)` as `executeCode` makes it: the filesystem it
leaves behind.  The error is not part of the result, the `defer` of line 125
drops it. -/
def osRemoveAll (env : Env) (fs : FS) (path : String) : FS :=
  match env.removeAllErr fs path with
  | none => fs.removeAll path
  | some (_, kept) => fs.removeAllBut path kept

/-- The function `executeCode` of main.go.  The deferred `os.RemoveAll(execDir)`
of line 125 is the last event of every path that passed line 122; its error is
dropped by the source. -/
def executeCode (env : Env) (w : World) (code : CodeRequest) : Outcome :=
  let execDir := execDirOf env.now
  match env.mkdirAllErr w.fs execDir with
  | some err =>
    ⟨{ Error := "Failed to create execution directory" }, w,
      [Event.mkdirAll execDir 0o755 (some err)]⟩
  | none =>
    let r := executeInDir env { w with fs := w.fs.mkdirAll execDir } code execDir
    ⟨r.resp, { r.world with fs := osRemoveAll env r.world.fs execDir },
      Event.mkdirAll execDir 0o755 none :: (r.events ++ [Event.removeAll execDir])⟩

/-! ## Reading a list of events -/

/-- The error an event carries, `none` for a call that succeeded. -/
def Event.err : Event → Option String
  | Event.mkdirAll _ _ e => e
  | Event.removeAll _ => none
  | Event.writeFile _ _ _ e => e
  | Event.withTimeout _ => none
  | Event.cancel _ => none
  | Event.spawn _ _ _ e => e

/-- Whether the event is a call on the filesystem. -/
def Event.isFsOp : Event → Bool
  | Event.mkdirAll _ _ _ => true
  | Event.removeAll _ => true
  | Event.writeFile _ _ _ _ => true
  | _ => false

/-- The processes spawned, in order: the step and the command of each. -/
def spawned : List Event → List (Step × Cmd)
  | [] => []
  | Event.spawn s c _ _ :: es => (s, c) :: spawned es
  | _ :: es => spawned es

/-- The deadlines established, in order. -/
def deadlines : List Event → List Context
  | [] => []
  | Event.withTimeout c :: es => c :: deadlines es
  | _ :: es => deadlines es

/-- The workspace directory of a call: the path of its first `os.MkdirAll`. -/
def workspaceOf : List Event → Option String
  | [] => none
  | Event.mkdirAll p _ _ :: _ => some p
  | _ :: es => workspaceOf es

/-! ## Auxiliary definitions for the path lemmas -/

/-- The digits of `n`, most significant first, `[0]` for zero. -/
def decimalDigits (n : Nat) : List Nat :=
  if n = 0 then [0] else (Nat.digits 10 n).reverse

/-- A component that `filepath.Clean` keeps. -/
def keptPart (p : List Char) : Bool := decide (p ≠ []) && decide (p ≠ ['.'])

/-! ## The shape of a call -/

/-- The five ways lines 140-223 can end, with the events and the response of
each; every command is bound to the context `ctx`. -/
def StepsShape (lang : String) (ctx : Context) (r : Outcome) : Prop :=
  (∃ c o e, r.events = [Event.spawn Step.run c o (some e)] ∧
      r.resp = { Output := "", Error := executionError e o } ∧ c.ctx = ctx) ∨
  (∃ c o, r.events = [Event.spawn Step.run c o none] ∧
      r.resp = { Output := o, Error := "" } ∧ c.ctx = ctx) ∨
  (∃ c o e, r.events = [Event.spawn Step.build c o (some e)] ∧
      r.resp = { Output := "", Error := compilationError e o } ∧ c.ctx = ctx ∧
      lang ≠ "javascript" ∧ lang ≠ "python") ∨
  (∃ b bo c o e,
      r.events = [Event.spawn Step.build b bo none, Event.spawn Step.run c o (some e)] ∧
      r.resp = { Output := "", Error := executionError e o } ∧ b.ctx = ctx ∧ c.ctx = ctx) ∨
  (∃ b bo c o,
      r.events = [Event.spawn Step.build b bo none, Event.spawn Step.run c o none] ∧
      r.resp = { Output := o, Error := "" } ∧ b.ctx = ctx ∧ c.ctx = ctx)

/-- The four ways a call of `executeCode` can go. -/
def CallShape (env : Env) (w : World) (code : CodeRequest) (r : Outcome) : Prop :=
  (∃ err, env.mkdirAllErr w.fs (execDirOf env.now) = some err ∧
      r.events = [Event.mkdirAll (execDirOf env.now) 0o755 (some err)] ∧
      r.resp = { Output := "", Error := "Failed to create execution directory" } ∧
      r.world = w) ∨
  (env.mkdirAllErr w.fs (execDirOf env.now) = none ∧
      code.Language ∉ registeredLanguages ∧
      r.events = [Event.mkdirAll (execDirOf env.now) 0o755 none,
        Event.removeAll (execDirOf env.now)] ∧
      r.resp = { Output := "", Error := "Unsupported language" }) ∨
  (∃ config err, env.mkdirAllErr w.fs (execDirOf env.now) = none ∧
      languageConfigs.lookup code.Language = some config ∧
      r.events = [Event.mkdirAll (execDirOf env.now) 0o755 none,
        Event.writeFile (filepathJoin [execDirOf env.now, config.Filename]) code.Code 0o644
          (some err),
        Event.removeAll (execDirOf env.now)] ∧
      r.resp = { Output := "", Error := "Failed to write code file" }) ∨
  (∃ config s, env.mkdirAllErr w.fs (execDirOf env.now) = none ∧
      languageConfigs.lookup code.Language = some config ∧
      StepsShape code.Language { id := w.nextCtx, timeout := 10 * timeSecond } s ∧
      r.events = Event.mkdirAll (execDirOf env.now) 0o755 none ::
        Event.writeFile (filepathJoin [execDirOf env.now, config.Filename]) code.Code 0o644 none ::
        Event.withTimeout { id := w.nextCtx, timeout := 10 * timeSecond } ::
        (s.events ++ [Event.cancel { id := w.nextCtx, timeout := 10 * timeSecond },
          Event.removeAll (execDirOf env.now)]) ∧
      r.resp = s.resp)

/-! ## The recipe table -/

/-- The steps of one language as the recipe table of the spec (section 4.3)
states them: the path of the source file, the build command where the language
has a build step, and the run command. -/
structure Recipe where
  source : String
  build : Option Cmd
  run : Cmd
  deriving DecidableEq, Repr

/-- The recipe table of the spec for the four registered languages, with the
workspace directory `d` and the context `ctx` of the call: `python3 d/main.py`;
`node d/main.js`; `javac d/Main.java` then `java Main`; `g++ d/main.cpp -o a.out`
then `d/a.out`; the run steps of java and cpp in a new process group. -/
def recipeTable (lang : String) (ctx : Context) (d : String) : Option Recipe :=
  if lang = "python" then
    some { source := d ++ "/main.py", build := none,
           run := { ctx := ctx, Path := "python3", Args := ["python3", d ++ "/main.py"],
                    Dir := d, SysProcAttr := none } }
  else if lang = "javascript" then
    some { source := d ++ "/main.js", build := none,
           run := { ctx := ctx, Path := "node", Args := ["node", d ++ "/main.js"],
                    Dir := d, SysProcAttr := none } }
  else if lang = "java" then
    some { source := d ++ "/Main.java",
           build := some { ctx := ctx, Path := "javac", Args := ["javac", d ++ "/Main.java"],
                           Dir := d, SysProcAttr := none },
           run := { ctx := ctx, Path := "java", Args := ["java", "Main"],
                    Dir := d, SysProcAttr := some { Setpgid := true, Pgid := 0 } } }
  else if lang = "cpp" then
    some { source := d ++ "/main.cpp",
           build := some { ctx := ctx, Path := "g++",
                           Args := ["g++", d ++ "/main.cpp", "-o", "a.out"],
                           Dir := d, SysProcAttr := none },
           run := { ctx := ctx, Path := d ++ "/a.out", Args := [d ++ "/a.out"],
                    Dir := d, SysProcAttr := some { Setpgid := true, Pgid := 0 } } }
  else none

/-- The context that a call starting in the world `w` makes at line 137. -/
def callCtx (w : World) : Context := { id := w.nextCtx, timeout := 10000000000 }

/-- The filesystem in which the first process of a call starts: the workspace
directory `d` made and the code written to the source file of the recipe. -/
def fsReady (w : World) (d : String) (r : Recipe) (code : String) : FS :=
  (w.fs.mkdirAll d).writeFile r.source code

/-- Whether the build step of the recipe, started in `fs`, ends without error
in the environment; `true` for a recipe without build step. -/
def Recipe.buildOk (r : Recipe) (env : Env) (fs : FS) : Bool :=
  match r.build with
  | none => true
  | some c => (env.run c fs).err.isNone

/-- The filesystem in which the run step of the recipe starts, when the first
step starts in `fs`: what the build step leaves behind, where there is one. -/
def Recipe.fsBeforeRun (r : Recipe) (env : Env) (fs : FS) : FS :=
  match r.build with
  | none => fs
  | some c => (env.run c fs).fs

/-- What the process of the run step of the recipe does in the environment,
when the first step starts in `fs`. -/
def Recipe.runResult (r : Recipe) (env : Env) (fs : FS) : ProcResult :=
  env.run r.run (r.fsBeforeRun env fs)

/-- The response that section 4.5 of the spec gives for a recipe whose first
step starts in `fs`, from what the processes do in the environment. -/
def Recipe.response (r : Recipe) (env : Env) (fs : FS) : CodeResponse :=
  match r.build with
  | none =>
    match (env.run r.run fs).err with
    | some e => { Error := executionError e (env.run r.run fs).output }
    | none => { Output := (env.run r.run fs).output }
  | some c =>
    match (env.run c fs).err with
    | some e => { Error := compilationError e (env.run c fs).output }
    | none =>
      match (env.run r.run (env.run c fs).fs).err with
      | some e => { Error := executionError e (env.run r.run (env.run c fs).fs).output }
      | none => { Output := (env.run r.run (env.run c fs).fs).output }

/-- The processes that the recipe spawns when its first step starts in `fs`:
the run step follows the build step only when the build ended without error. -/
def Recipe.spawned (r : Recipe) (env : Env) (fs : FS) : List (Step × Cmd) :=
  match r.build with
  | none => [(Step.run, r.run)]
  | some c =>
    match (env.run c fs).err with
    | some _ => [(Step.build, c)]
    | none => [(Step.build, c), (Step.run, r.run)]

/-- The filesystem in which the deferred `os.RemoveAll` of a call runs: what
lines 127-223 leave behind, started with the workspace directory made. -/
def fsAtRelease (env : Env) (w : World) (code : CodeRequest) : FS :=
  (executeInDir env { w with fs := w.fs.mkdirAll (execDirOf env.now) } code
    (execDirOf env.now)).world.fs

/-! ## Concrete environments -/

/-- An empty filesystem but for `/tmp`. -/
def fs0 : FS := { dirs := ["/tmp"], files := [] }

/-- A world on `fs0`. -/
def w0 : World := { fs := fs0, nextCtx := 0 }

/-- An environment in which every filesystem call succeeds and every process
prints `out` and ends with the error `err`, leaving the filesystem as it was. -/
def envAll (now : Int) (out : String) (err : Option String) : Env :=
  { now := now, mkdirAllErr := fun _ _ => none, writeFileErr := fun _ _ _ => none,
    removeAllErr := fun _ _ => none,
    run := fun _ fs => { output := out, err := err, fs := fs } }

/-- An environment in which `os.MkdirAll` fails (a read-only `/tmp`); everything
else is as in `envAll`. -/
def envNoMkdir (now : Int) : Env :=
  { envAll now "" none with mkdirAllErr := fun _ p => some ("mkdir " ++ p ++ ": read-only file system") }

/-- A filesystem in which `/tmp/execution_5` is already there, with a file in it. -/
def fsStale : FS :=
  { dirs := ["/tmp", "/tmp/execution_5"], files := [("/tmp/execution_5/notes.txt", "kept")] }

/-- An environment in which every filesystem call succeeds, `javac` and `g++`
print a warning, leave their artifact `a.out` in the working directory and
succeed, and every other process prints `out` and succeeds. -/
def envWarn (now : Int) (out : String) : Env :=
  { envAll now out none with
    run := fun cmd fs =>
      if cmd.Path = "javac" ∨ cmd.Path = "g++" then
        { output := "warning: deprecated\n", err := none,
          fs := fs.writeFile (cmd.Dir ++ "/a.out") "artifact" }
      else { output := out, err := none, fs := fs } }

/-- An environment in which every filesystem call succeeds, `javac` and `g++`
print a diagnostic and exit with status 1, and no other process fails. -/
def envBuildFails (now : Int) : Env :=
  { envAll now "" none with
    run := fun cmd fs =>
      if cmd.Path = "javac" ∨ cmd.Path = "g++" then
        { output := "error: expected ;\n", err := some "exit status 1", fs := fs }
      else { output := "", err := none, fs := fs } }

/-- An environment in which every filesystem call succeeds, `javac` succeeds
without output, and every other process prints `partial` and exits with
status 1. -/
def envRunFails (now : Int) : Env :=
  { envAll now "" none with
    run := fun cmd fs =>
      if cmd.Path = "javac" ∨ cmd.Path = "g++" then { output := "", err := none, fs := fs }
      else { output := "partial", err := some "exit status 1", fs := fs } }

/-- An environment in which every filesystem call but the removal succeeds:
every process creates the directory `locked` with a file in it below its
working directory and ends without output and without error, and `os.RemoveAll`
on a directory that holds `locked` fails with `permission denied`, leaving the
directory, `locked` and the file. -/
def envLocked (now : Int) : Env :=
  { envAll now "" none with
    run := fun cmd fs =>
      { output := "", err := none,
        fs := (fs.mkdirAll (cmd.Dir ++ "/locked")).writeFile (cmd.Dir ++ "/locked/f") "x" },
    removeAllErr := fun fs p =>
      if fs.dirs.contains (p ++ "/locked") then
        some ("unlinkat " ++ p ++ "/locked: permission denied",
          [p, p ++ "/locked", p ++ "/locked/f"])
      else none }

/-- The command `javac /tmp/execution_5/Main.java` of a call in the world `w0`. -/
def javacAt5 : Cmd :=
  { ctx := { id := 0, timeout := 10000000000 }, Path := "javac",
    Args := ["javac", "/tmp/execution_5/Main.java"], Dir := "/tmp/execution_5",
    SysProcAttr := none }

/-- The command `g++ /tmp/execution_5/main.cpp -o a.out` of a call in the world `w0`. -/
def gppAt5 : Cmd :=
  { ctx := { id := 0, timeout := 10000000000 }, Path := "g++",
    Args := ["g++", "/tmp/execution_5/main.cpp", "-o", "a.out"], Dir := "/tmp/execution_5",
    SysProcAttr := none }

/-- The recipe of python for a call in the world `w0` at clock value 5. -/
def pythonAt5 : Recipe :=
  { source := "/tmp/execution_5/main.py", build := none,
    run := { ctx := { id := 0, timeout := 10000000000 }, Path := "python3",
             Args := ["python3", "/tmp/execution_5/main.py"], Dir := "/tmp/execution_5",
             SysProcAttr := none } }

/-- The recipe of java for a call in the world `w0` at clock value 5. -/
def javaAt5 : Recipe :=
  { source := "/tmp/execution_5/Main.java", build := some javacAt5,
    run := { ctx := { id := 0, timeout := 10000000000 }, Path := "java",
             Args := ["java", "Main"], Dir := "/tmp/execution_5",
             SysProcAttr := some { Setpgid := true, Pgid := 0 } } }

/-- The recipe of cpp for a call in the world `w0` at clock value 5. -/
def cppAt5 : Recipe :=
  { source := "/tmp/execution_5/main.cpp", build := some gppAt5,
    run := { ctx := { id := 0, timeout := 10000000000 }, Path := "/tmp/execution_5/a.out",
             Args := ["/tmp/execution_5/a.out"], Dir := "/tmp/execution_5",
             SysProcAttr := some { Setpgid := true, Pgid := 0 } } }

/-! # Theorems -/

/-! ## Paths -/

theorem toDigitsCore_eq_digits (fuel : Nat) : ∀ (n : Nat) (ds : List Char), 0 < n → n < fuel →
    Nat.toDigitsCore 10 fuel n ds = ((Nat.digits 10 n).reverse.map Nat.digitChar) ++ ds := by
  induction fuel with
  | zero => intro n ds _ h; omega
  | succ fuel ih =>
    intro n ds hpos hlt
    have hd : Nat.digits 10 n = n % 10 :: Nat.digits 10 (n / 10) :=
      Nat.digits_def' (by norm_num) hpos
    rw [Nat.toDigitsCore, hd]
    by_cases h0 : n / 10 = 0
    · simp [h0]
    · have hlt2 : n / 10 < fuel := by omega
      simp only [h0, if_false]
      rw [ih (n / 10) _ (Nat.pos_of_ne_zero h0) hlt2]
      simp

theorem toDigits_eq_digits (n : Nat) (h : 0 < n) :
    Nat.toDigits 10 n = (Nat.digits 10 n).reverse.map Nat.digitChar := by
  rw [Nat.toDigits, toDigitsCore_eq_digits (n + 1) n [] h (by omega)]
  simp

theorem digitChar_inj : ∀ a < 10, ∀ b < 10, Nat.digitChar a = Nat.digitChar b → a = b := by
  decide

theorem digitChar_ne : ∀ a < 10, Nat.digitChar a ≠ '/' ∧ Nat.digitChar a ≠ '-' := by
  decide

theorem decimalDigits_lt (n : Nat) : ∀ d ∈ decimalDigits n, d < 10 := by
  intro d hd
  unfold decimalDigits at hd
  split at hd
  · simp at hd; omega
  · exact Nat.digits_lt_base (by norm_num) (List.mem_reverse.mp hd)

theorem decimalDigits_inj (a b : Nat) (h : decimalDigits a = decimalDigits b) : a = b := by
  have key : ∀ n, Nat.ofDigits 10 (decimalDigits n).reverse = n := by
    intro n
    unfold decimalDigits
    split
    · next h0 => simp [h0]
    · simp [Nat.ofDigits_digits]
  rw [← key a, ← key b, h]

theorem toDigits_eq_map (n : Nat) : Nat.toDigits 10 n = (decimalDigits n).map Nat.digitChar := by
  unfold decimalDigits
  split
  · next h0 => subst h0; decide
  · next h0 => exact toDigits_eq_digits n (Nat.pos_of_ne_zero h0)

theorem map_digitChar_inj : ∀ l₁ l₂ : List Nat, (∀ x ∈ l₁, x < 10) → (∀ x ∈ l₂, x < 10) →
    l₁.map Nat.digitChar = l₂.map Nat.digitChar → l₁ = l₂ := by
  intro l₁
  induction l₁ with
  | nil => intro l₂ _ _ h; cases l₂ with
    | nil => rfl
    | cons b t => simp at h
  | cons a t ih =>
    intro l₂ h₁ h₂ h
    cases l₂ with
    | nil => simp at h
    | cons b t₂ =>
      simp only [List.map_cons, List.cons.injEq] at h
      have hab := digitChar_inj a (h₁ a (by simp)) b (h₂ b (by simp)) h.1
      have ht := ih t₂ (fun x hx => h₁ x (by simp [hx])) (fun x hx => h₂ x (by simp [hx])) h.2
      rw [hab, ht]

theorem toDigits_inj (a b : Nat) (h : Nat.toDigits 10 a = Nat.toDigits 10 b) : a = b := by
  rw [toDigits_eq_map, toDigits_eq_map] at h
  exact decimalDigits_inj a b
    (map_digitChar_inj _ _ (decimalDigits_lt a) (decimalDigits_lt b) h)

theorem toDigits_mem (n : Nat) : ∀ c ∈ Nat.toDigits 10 n, c ≠ '/' ∧ c ≠ '-' := by
  intro c hc
  rw [toDigits_eq_map, List.mem_map] at hc
  obtain ⟨d, hd, rfl⟩ := hc
  exact digitChar_ne d (decimalDigits_lt n d hd)

theorem sprintfD_inj (a b : Int) (h : sprintfD a = sprintfD b) : a = b := by
  cases a with
  | ofNat m =>
    cases b with
    | ofNat k =>
      have h := congrArg String.data h
      simp only [sprintfD] at h
      rw [toDigits_inj m k h]
    | negSucc k =>
      have h := congrArg String.data h
      simp only [sprintfD] at h
      have := (toDigits_mem m '-' (by rw [h]; simp)).2
      exact absurd rfl this
  | negSucc m =>
    cases b with
    | ofNat k =>
      have h := congrArg String.data h
      simp only [sprintfD] at h
      have := (toDigits_mem k '-' (by rw [← h]; simp)).2
      exact absurd rfl this
    | negSucc k =>
      have h := congrArg String.data h
      simp only [sprintfD, List.cons.injEq, true_and] at h
      have := toDigits_inj _ _ h
      have hmk : m = k := by omega
      rw [hmk]

theorem sprintfD_noSlash (n : Int) : '/' ∉ (sprintfD n).data := by
  intro hmem
  cases n with
  | ofNat m =>
    simp only [sprintfD] at hmem
    exact (toDigits_mem m '/' hmem).1 rfl
  | negSucc m =>
    simp only [sprintfD, List.mem_cons] at hmem
    rcases hmem with h | h
    · exact absurd h (by decide)
    · exact (toDigits_mem (m + 1) '/' h).1 rfl

theorem splitSlash_append (p rest : List Char) (hp : '/' ∉ p) :
    splitSlash (p ++ rest) = (p ++ (splitSlash rest).1, (splitSlash rest).2) := by
  induction p with
  | nil => simp
  | cons c t ih =>
    have hc : c ≠ '/' := fun h => hp (by simp [h])
    have ht : '/' ∉ t := fun h => hp (by simp [h])
    simp [splitSlash, hc, ih ht]

theorem splitSlash_noSlash (p : List Char) (hp : '/' ∉ p) : splitSlash p = (p, []) := by
  have := splitSlash_append p [] hp
  simpa [splitSlash] using this

theorem splitSlash_joinSlash : ∀ (p : List Char) (ps : List (List Char)),
    (∀ q ∈ p :: ps, '/' ∉ q) → splitSlash (joinSlash (p :: ps)) = (p, ps) := by
  intro p ps
  induction ps generalizing p with
  | nil => intro h; simpa [joinSlash] using splitSlash_noSlash p (h p (by simp))
  | cons q qs ih =>
    intro h
    have hq := ih q (fun r hr => h r (by simp at hr ⊢; tauto))
    rw [joinSlash, splitSlash_append _ _ (h p (by simp))]
    simp [splitSlash, hq]

theorem cleanParts_noDotDot (rooted : Bool) : ∀ (ps stack : List (List Char)),
    (∀ q ∈ ps, q ≠ ['.', '.']) →
    cleanParts rooted stack ps = stack.reverse ++ ps.filter keptPart := by
  intro ps
  induction ps with
  | nil => intro stack _; simp [cleanParts]
  | cons p ps ih =>
    intro stack h
    have hp : p ≠ ['.', '.'] := h p (by simp)
    have ih2 := fun st => ih st (fun q hq => h q (by simp [hq]))
    by_cases h1 : p = [] ∨ p = ['.']
    · simp only [cleanParts, if_pos h1, ih2]
      have : keptPart p = false := by
        rcases h1 with h1 | h1 <;> simp [keptPart, h1]
      simp [List.filter_cons, this]
    · simp only [cleanParts, if_neg h1, if_neg hp, ih2]
      have : keptPart p = true := by
        simp only [not_or] at h1
        simp [keptPart, h1.1, h1.2]
      simp [List.filter_cons, this]

/-- `filepath.Clean` on a rooted path whose components hold no `..`: the empty
components and the `.` components go, the others stay. -/
theorem cleanChars_rooted (p : List Char) (ps : List (List Char))
    (h : ∀ q ∈ p :: ps, '/' ∉ q ∧ q ≠ ['.', '.']) :
    cleanChars ('/' :: joinSlash (p :: ps)) = '/' :: joinSlash ((p :: ps).filter keptPart) := by
  have hs := splitSlash_joinSlash p ps (fun q hq => (h q hq).1)
  have hc := cleanParts_noDotDot true ([] :: p :: ps) []
    (fun q hq => by
      rcases List.mem_cons.mp hq with h0 | h0
      · rw [h0]; simp
      · exact (h q h0).2)
  simp only [cleanChars, splitSlash, hs]
  have hk : keptPart [] = false := by decide
  have hf : List.filter keptPart ([] :: p :: ps) = List.filter keptPart (p :: ps) := by
    rw [List.filter_cons, hk]; simp
  simp [hc, hf]

theorem execDirOf_data (now : Int) :
    (execDirOf now).data = '/' :: joinSlash ["tmp".data, "execution_".data ++ (sprintfD now).data] := by
  have hD := sprintfD_noSlash now
  have h := cleanChars_rooted "tmp".data ["execution_".data ++ (sprintfD now).data]
    (by
      intro q hq
      simp only [List.mem_cons, List.mem_singleton, List.not_mem_nil, or_false] at hq
      rcases hq with rfl | rfl
      · decide
      · constructor
        · simp [hD]
        · simp)
  have e1 : "/tmp".data = '/' :: "tmp".data := rfl
  have e2 : "execution_".data = 'e' :: "xecution_".data := rfl
  have k1 : keptPart "tmp".data = true := by decide
  have k2 : keptPart ("execution_".data ++ (sprintfD now).data) = true := by
    rw [e2]; simp [keptPart]
  have d1 : decide ("/tmp" = "") = false := by decide
  simp only [execDirOf, filepathJoin, List.dropWhile_cons, d1, Bool.false_eq_true, if_false,
    List.map_cons, List.map_nil, String.data_append, joinSlash, e1, List.cons_append]
  have h' := h
  simp only [List.filter_cons, k1, k2, if_true, List.filter_nil, joinSlash] at h'
  simpa [joinSlash] using h'

theorem execDirOf_eq (now : Int) : execDirOf now = "/tmp/execution_" ++ sprintfD now := by
  apply String.ext
  rw [execDirOf_data]
  rfl

theorem execDirOf_ne_empty (now : Int) : decide (execDirOf now = "") = false := by
  have h := execDirOf_data now
  simp only [decide_eq_false_iff_not]
  intro h0
  rw [h0] at h
  exact absurd h (by simp)

/-- The source path: `filepath.Join(execDir, config.Filename)` for a file name
that is one plain component. -/
theorem codePath_eq (now : Int) (f : String) (hf : '/' ∉ f.data)
    (hk : keptPart f.data = true) (hdd : f.data ≠ ['.', '.']) :
    filepathJoin [execDirOf now, f] = execDirOf now ++ "/" ++ f := by
  have hD := sprintfD_noSlash now
  have h := cleanChars_rooted "tmp".data ["execution_".data ++ (sprintfD now).data, f.data]
    (by
      intro q hq
      simp only [List.mem_cons, List.mem_singleton, List.not_mem_nil, or_false] at hq
      rcases hq with rfl | rfl | rfl
      · decide
      · constructor
        · simp [hD]
        · simp
      · exact ⟨hf, hdd⟩)
  have e2 : "execution_".data = 'e' :: "xecution_".data := rfl
  have k1 : keptPart "tmp".data = true := by decide
  have k2 : keptPart ("execution_".data ++ (sprintfD now).data) = true := by
    rw [e2]; simp [keptPart]
  have e3 : "/".data = ['/'] := rfl
  apply String.ext
  simp only [filepathJoin, List.dropWhile_cons, execDirOf_ne_empty, Bool.false_eq_true,
    if_false, List.map_cons, List.map_nil, String.data_append, joinSlash, execDirOf_data,
    List.cons_append, e3]
  simp only [List.filter_cons, k1, k2, hk, if_true, List.filter_nil, joinSlash] at h
  simpa [joinSlash] using h

/-- The artifact path: `filepath.Join(execDir, "./a.out")`. -/
theorem artifactPath_eq (now : Int) :
    filepathJoin [execDirOf now, "./a.out"] = execDirOf now ++ "/a.out" := by
  have hD := sprintfD_noSlash now
  have h := cleanChars_rooted "tmp".data
    ["execution_".data ++ (sprintfD now).data, ".".data, "a.out".data]
    (by
      intro q hq
      simp only [List.mem_cons, List.mem_singleton, List.not_mem_nil, or_false] at hq
      rcases hq with rfl | rfl | rfl | rfl
      · decide
      · constructor
        · simp [hD]
        · simp
      · decide
      · decide)
  have e2 : "execution_".data = 'e' :: "xecution_".data := rfl
  have k1 : keptPart "tmp".data = true := by decide
  have k2 : keptPart ("execution_".data ++ (sprintfD now).data) = true := by
    rw [e2]; simp [keptPart]
  have k3 : keptPart ".".data = false := by decide
  have k4 : keptPart "a.out".data = true := by decide
  have e3 : "./a.out".data = ".".data ++ '/' :: "a.out".data := rfl
  have e4 : "/a.out".data = '/' :: "a.out".data := rfl
  apply String.ext
  simp only [filepathJoin, List.dropWhile_cons, execDirOf_ne_empty, Bool.false_eq_true,
    if_false, List.map_cons, List.map_nil, String.data_append, joinSlash, execDirOf_data,
    List.cons_append, e3, e4]
  simp only [List.filter_cons, k1, k2, k3, k4, if_true, List.filter_nil, joinSlash] at h
  simpa [joinSlash] using h

/-! ## The registry -/

theorem lookup_cases (lang : String) :
    (lang ∉ registeredLanguages ∧ languageConfigs.lookup lang = none) ∨
    (lang = "python" ∧ languageConfigs.lookup lang = some
      { Compiler := "python3", Filename := "main.py", RunCmd := "python3",
        BuildArgs := ["-c", "import py_compile; py_compile.compile(\x27\x7b\x7d\x27)"] }) ∨
    (lang = "cpp" ∧ languageConfigs.lookup lang = some
      { Compiler := "g++", Filename := "main.cpp", RunCmd := "./a.out",
        BuildArgs := ["-o", "a.out"] }) ∨
    (lang = "javascript" ∧ languageConfigs.lookup lang = some
      { Compiler := "node", Filename := "main.js", RunCmd := "node", BuildArgs := [] }) ∨
    (lang = "java" ∧ languageConfigs.lookup lang = some
      { Compiler := "javac", Filename := "Main.java", RunCmd := "java",
        BuildArgs := [], MainClass := "Main" }) := by
  by_cases h1 : lang = "python"
  · subst h1; right; left; exact ⟨rfl, by decide⟩
  by_cases h2 : lang = "cpp"
  · subst h2; right; right; left; exact ⟨rfl, by decide⟩
  by_cases h3 : lang = "javascript"
  · subst h3; right; right; right; left; exact ⟨rfl, by decide⟩
  by_cases h4 : lang = "java"
  · subst h4; right; right; right; right; exact ⟨rfl, by decide⟩
  left
  have b1 : (lang == "python") = false := by simp [h1]
  have b2 : (lang == "cpp") = false := by simp [h2]
  have b3 : (lang == "javascript") = false := by simp [h3]
  have b4 : (lang == "java") = false := by simp [h4]
  constructor
  · simp [registeredLanguages, languageConfigs, h1, h2, h3, h4]
  · simp [languageConfigs, List.lookup, b1, b2, b3, b4]

theorem lookup_none (lang : String) (h : lang ∉ registeredLanguages) :
    languageConfigs.lookup lang = none := by
  rcases lookup_cases lang with h0 | h0 | h0 | h0 | h0
  · exact h0.2
  all_goals exact absurd (h0.1 ▸ (by decide)) h

theorem lookup_some (lang : String) (config : LanguageConfig)
    (h : languageConfigs.lookup lang = some config) : lang ∈ registeredLanguages := by
  by_contra hn
  rw [lookup_none lang hn] at h
  exact absurd h (by simp)

/-! ## The outcomes of a call -/

theorem executeSteps_shape (env : Env) (w : World) (code : CodeRequest) (config : LanguageConfig)
    (execDir codePath : String) (ctx : Context) :
    StepsShape code.Language ctx (executeSteps env w code config execDir codePath ctx) := by
  generalize hr : executeSteps env w code config execDir codePath ctx = r
  unfold executeSteps at hr
  simp only at hr
  repeat' split at hr
  all_goals subst hr
  all_goals simp [StepsShape, commandContext, and_assoc, *]

theorem executeCode_shape (env : Env) (w : World) (code : CodeRequest) :
    CallShape env w code (executeCode env w code) := by
  generalize hr : executeCode env w code = r
  unfold executeCode executeInDir at hr
  simp only at hr
  split at hr
  · next err hmk =>
    subst hr
    left
    exact ⟨err, hmk, rfl, rfl, rfl⟩
  · next hmk =>
    right
    split at hr
    · next hl =>
      subst hr
      left
      refine ⟨hmk, ?_, rfl, rfl⟩
      intro hmem
      rcases lookup_cases code.Language with h0 | h0 | h0 | h0 | h0
      · exact h0.1 hmem
      all_goals rw [h0.2] at hl; exact absurd hl (by simp)
    · next config hl =>
      right
      split at hr
      · next err hw =>
        subst hr
        left
        exact ⟨config, err, hmk, hl, rfl, rfl⟩
      · next hw =>
        subst hr
        right
        exact ⟨config, _, hmk, hl, executeSteps_shape _ _ _ _ _ _ _, by simp, rfl⟩

/-! ## Small facts -/

theorem removeAll_pathExists (fs : FS) (p q : String) (h : pathUnder p q = true) :
    (fs.removeAll p).pathExists q = false := by
  rw [Bool.eq_false_iff]
  intro hex
  simp only [FS.pathExists, FS.removeAll, Bool.or_eq_true, List.contains, List.elem_eq_mem,
    decide_eq_true_eq, List.mem_filter, List.mem_map] at hex
  rcases hex with ⟨_, hq⟩ | ⟨x, ⟨_, hx⟩, rfl⟩
  · simp [h] at hq
  · simp [h] at hx

theorem pathUnder_self (p : String) : pathUnder p p = true := by
  simp [pathUnder]

theorem executionError_ne_empty (e o : String) : executionError e o ≠ "" := by
  intro h
  have h1 := congrArg String.data h
  have e1 : "Execution error: ".data = 'E' :: "xecution error: ".data := rfl
  simp [executionError, String.data_append, e1] at h1

theorem compilationError_ne_empty (e o : String) : compilationError e o ≠ "" := by
  intro h
  have h1 := congrArg String.data h
  have e1 : "Compilation error: ".data = 'C' :: "ompilation error: ".data := rfl
  simp [compilationError, String.data_append, e1] at h1

theorem replace_dash_o (new : String) : stringsReplaceAll "-o" "\x7b\x7d" new = "-o" := rfl

theorem replace_a_out (new : String) : stringsReplaceAll "a.out" "\x7b\x7d" new = "a.out" := rfl

/-! ## A call against the recipe table -/

theorem sourcePath_py (now : Int) :
    filepathJoin [execDirOf now, "main.py"] = execDirOf now ++ "/main.py" := by
  rw [codePath_eq now "main.py" (by decide) (by decide) (by decide), String.append_assoc]
  rfl

theorem sourcePath_js (now : Int) :
    filepathJoin [execDirOf now, "main.js"] = execDirOf now ++ "/main.js" := by
  rw [codePath_eq now "main.js" (by decide) (by decide) (by decide), String.append_assoc]
  rfl

theorem sourcePath_java (now : Int) :
    filepathJoin [execDirOf now, "Main.java"] = execDirOf now ++ "/Main.java" := by
  rw [codePath_eq now "Main.java" (by decide) (by decide) (by decide), String.append_assoc]
  rfl

theorem sourcePath_cpp (now : Int) :
    filepathJoin [execDirOf now, "main.cpp"] = execDirOf now ++ "/main.cpp" := by
  rw [codePath_eq now "main.cpp" (by decide) (by decide) (by decide), String.append_assoc]
  rfl

theorem recipeTable_some (lang : String) (ctx : Context) (d : String) (r : Recipe)
    (h : recipeTable lang ctx d = some r) : lang ∈ registeredLanguages := by
  unfold recipeTable at h
  split_ifs at h with h1 h2 h3 h4
  all_goals simp [registeredLanguages, languageConfigs, *]

theorem recipeTable_registered (lang : String) (ctx : Context) (d : String)
    (h : lang ∈ registeredLanguages) : ∃ r, recipeTable lang ctx d = some r := by
  simp only [registeredLanguages, languageConfigs, List.map_cons, List.map_nil, List.mem_cons,
    List.mem_singleton, List.not_mem_nil, or_false] at h
  rcases h with h | h | h | h <;> subst h <;> exact ⟨_, rfl⟩

/-- With the workspace set up, the response and the processes of a call are
those of the recipe of its language, run in the environment. -/
theorem executeCode_recipe (env : Env) (w : World) (code : CodeRequest) (recipe : Recipe)
    (hrec : recipeTable code.Language (callCtx w) (execDirOf env.now) = some recipe)
    (hmk : env.mkdirAllErr w.fs (execDirOf env.now) = none)
    (hwr : env.writeFileErr (w.fs.mkdirAll (execDirOf env.now)) recipe.source code.Code = none) :
    (executeCode env w code).resp
      = recipe.response env (fsReady w (execDirOf env.now) recipe code.Code) ∧
    spawned (executeCode env w code).events
      = recipe.spawned env (fsReady w (execDirOf env.now) recipe code.Code) := by
  have hpy := sourcePath_py env.now
  have hjs := sourcePath_js env.now
  have hjava := sourcePath_java env.now
  have hcpp := sourcePath_cpp env.now
  have hart := artifactPath_eq env.now
  obtain ⟨src, lang⟩ := code
  unfold recipeTable at hrec
  simp only at hrec hwr ⊢
  split_ifs at hrec with h1 h2 h3 h4
  · subst h1
    simp only [Option.some.injEq] at hrec
    subst hrec
    generalize hr : executeCode env w ⟨src, "python"⟩ = r
    unfold executeCode executeInDir executeSteps at hr
    have hlk : languageConfigs.lookup "python" = some
      { Compiler := "python3", Filename := "main.py", RunCmd := "python3",
        BuildArgs := ["-c", "import py_compile; py_compile.compile(\x27\x7b\x7d\x27)"] } := by
      decide
    simp only [hlk] at hr
    repeat' split at hr
    all_goals subst hr
    all_goals simp_all [spawned, commandContext, timeSecond, callCtx, fsReady, Recipe.response,
      Recipe.spawned]
  · subst h2
    simp only [Option.some.injEq] at hrec
    subst hrec
    generalize hr : executeCode env w ⟨src, "javascript"⟩ = r
    unfold executeCode executeInDir executeSteps at hr
    have hlk : languageConfigs.lookup "javascript" = some
      { Compiler := "node", Filename := "main.js", RunCmd := "node", BuildArgs := [] } := by
      decide
    simp only [hlk] at hr
    repeat' split at hr
    all_goals subst hr
    all_goals simp_all [spawned, commandContext, timeSecond, callCtx, fsReady, Recipe.response,
      Recipe.spawned]
  · subst h3
    simp only [Option.some.injEq] at hrec
    subst hrec
    generalize hr : executeCode env w ⟨src, "java"⟩ = r
    unfold executeCode executeInDir executeSteps at hr
    have hlk : languageConfigs.lookup "java" = some
      { Compiler := "javac", Filename := "Main.java", RunCmd := "java", BuildArgs := [],
        MainClass := "Main" } := by
      decide
    simp only [hlk] at hr
    repeat' split at hr
    all_goals subst hr
    all_goals simp_all [spawned, commandContext, timeSecond, callCtx, fsReady, Recipe.response,
      Recipe.spawned]
  · subst h4
    simp only [Option.some.injEq] at hrec
    subst hrec
    generalize hr : executeCode env w ⟨src, "cpp"⟩ = r
    unfold executeCode executeInDir executeSteps at hr
    have hlk : languageConfigs.lookup "cpp" = some
      { Compiler := "g++", Filename := "main.cpp", RunCmd := "./a.out",
        BuildArgs := ["-o", "a.out"] } := by
      decide
    simp only [hlk] at hr
    repeat' split at hr
    all_goals subst hr
    all_goals simp_all [spawned, commandContext, timeSecond, callCtx, fsReady, Recipe.response,
      Recipe.spawned, replace_dash_o, replace_a_out]

theorem executeCode_mkdir_fails (env : Env) (w : World) (code : CodeRequest) (err : String)
    (hmk : env.mkdirAllErr w.fs (execDirOf env.now) = some err) :
    (executeCode env w code).resp
      = { Output := "", Error := "Failed to create execution directory" } := by
  simp [executeCode, hmk]

theorem executeCode_unregistered (env : Env) (w : World) (code : CodeRequest)
    (hmk : env.mkdirAllErr w.fs (execDirOf env.now) = none)
    (hl : code.Language ∉ registeredLanguages) :
    (executeCode env w code).resp = { Output := "", Error := "Unsupported language" } := by
  simp [executeCode, executeInDir, hmk, lookup_none _ hl]

theorem executeCode_write_fails (env : Env) (w : World) (code : CodeRequest) (recipe : Recipe)
    (err : String)
    (hrec : recipeTable code.Language (callCtx w) (execDirOf env.now) = some recipe)
    (hmk : env.mkdirAllErr w.fs (execDirOf env.now) = none)
    (hwr : env.writeFileErr (w.fs.mkdirAll (execDirOf env.now)) recipe.source code.Code
      = some err) :
    (executeCode env w code).resp = { Output := "", Error := "Failed to write code file" } := by
  have hpy := sourcePath_py env.now
  have hjs := sourcePath_js env.now
  have hjava := sourcePath_java env.now
  have hcpp := sourcePath_cpp env.now
  obtain ⟨src, lang⟩ := code
  unfold recipeTable at hrec
  simp only at hrec hwr ⊢
  split_ifs at hrec with h1 h2 h3 h4
  all_goals
    simp only [Option.some.injEq] at hrec
    subst hrec
  · subst h1
    have hlk : languageConfigs.lookup "python" = some
      { Compiler := "python3", Filename := "main.py", RunCmd := "python3",
        BuildArgs := ["-c", "import py_compile; py_compile.compile(\x27\x7b\x7d\x27)"] } := by
      decide
    simp_all [executeCode, executeInDir]
  · subst h2
    have hlk : languageConfigs.lookup "javascript" = some
      { Compiler := "node", Filename := "main.js", RunCmd := "node", BuildArgs := [] } := by
      decide
    simp_all [executeCode, executeInDir]
  · subst h3
    have hlk : languageConfigs.lookup "java" = some
      { Compiler := "javac", Filename := "Main.java", RunCmd := "java", BuildArgs := [],
        MainClass := "Main" } := by
      decide
    simp_all [executeCode, executeInDir]
  · subst h4
    have hlk : languageConfigs.lookup "cpp" = some
      { Compiler := "g++", Filename := "main.cpp", RunCmd := "./a.out",
        BuildArgs := ["-o", "a.out"] } := by
      decide
    simp_all [executeCode, executeInDir]

/-! ## Unsupported languages (C1, C2) -/

/-- C1, against the claim: with the unregistered identifier `ruby` and a `/tmp`
in which directory creation fails, `executeCode` answers
`Failed to create execution directory`, not `Unsupported language`. -/
theorem unsupported_language_mkdir_fails :
    "ruby" ∉ registeredLanguages ∧
    (executeCode (envNoMkdir 5) w0 ⟨"puts 1", "ruby"⟩).resp
      = { Output := "", Error := "Failed to create execution directory" } ∧
    (executeCode (envNoMkdir 5) w0 ⟨"puts 1", "ruby"⟩).resp
      ≠ { Output := "", Error := "Unsupported language" } := by
  decide

/-- C1, as amended: for a language identifier that is not a key of the registry,
`executeCode` returns `Error = "Unsupported language"` with empty `Output` when
the creation of the workspace directory succeeds, and
`Error = "Failed to create execution directory"` with empty `Output` when it
fails; the code text plays no part. -/
theorem unsupported_language_response (env : Env) (w : World) (code : CodeRequest)
    (h : code.Language ∉ registeredLanguages) :
    (executeCode env w code).resp =
      if env.mkdirAllErr w.fs (execDirOf env.now) = none
      then { Output := "", Error := "Unsupported language" }
      else { Output := "", Error := "Failed to create execution directory" } := by
  rcases executeCode_shape env w code with hs | hs | hs | hs
  · obtain ⟨err, hmk, _, hresp, _⟩ := hs
    simp [hmk, hresp]
  · obtain ⟨hmk, _, _, hresp⟩ := hs
    simp [hmk, hresp]
  · obtain ⟨config, _, _, hl, _⟩ := hs
    exact absurd (lookup_some _ _ hl) h
  · obtain ⟨config, _, _, hl, _⟩ := hs
    exact absurd (lookup_some _ _ hl) h

/-- The theorem `unsupported_language_response` at the identifier `ruby`, in an
environment where every filesystem call succeeds. -/
theorem unsupported_language_response_witness :
    "ruby" ∉ registeredLanguages ∧
    (executeCode (envAll 5 "" none) w0 ⟨"puts 1", "ruby"⟩).resp
      = { Output := "", Error := "Unsupported language" } :=
  ⟨by decide,
    (unsupported_language_response (envAll 5 "" none) w0 ⟨"puts 1", "ruby"⟩ (by decide)).trans
      (by decide)⟩

/-- C2, against the claim: for the unregistered identifier `ruby` the calls
`os.MkdirAll` and `os.RemoveAll` are issued on `/tmp/execution_5`, and a
directory of that name that was there before, with its file, is gone after. -/
theorem unsupported_language_touches_fs :
    "ruby" ∉ registeredLanguages ∧
    (executeCode (envAll 5 "" none) w0 ⟨"puts 1", "ruby"⟩).events
      = [Event.mkdirAll "/tmp/execution_5" 0o755 none, Event.removeAll "/tmp/execution_5"] ∧
    ((executeCode (envAll 5 "" none) w0 ⟨"puts 1", "ruby"⟩).events.filter Event.isFsOp) ≠ [] ∧
    (executeCode (envAll 5 "" none) { fs := fsStale, nextCtx := 0 } ⟨"puts 1", "ruby"⟩).world.fs
      = { dirs := ["/tmp"], files := [] } := by
  decide

/-- C2, as amended: for a language identifier that is not a key of the registry,
the system calls of `executeCode` are `os.MkdirAll` on the workspace directory
and, when that succeeded, `os.RemoveAll` on it, and nothing else: no file is
written and no process is spawned. -/
theorem unsupported_language_events (env : Env) (w : World) (code : CodeRequest)
    (h : code.Language ∉ registeredLanguages) :
    (executeCode env w code).events =
      match env.mkdirAllErr w.fs (execDirOf env.now) with
      | some err => [Event.mkdirAll (execDirOf env.now) 0o755 (some err)]
      | none => [Event.mkdirAll (execDirOf env.now) 0o755 none,
          Event.removeAll (execDirOf env.now)] := by
  rcases executeCode_shape env w code with hs | hs | hs | hs
  · obtain ⟨err, hmk, hev, _, _⟩ := hs
    simp [hmk, hev]
  · obtain ⟨hmk, _, hev, _⟩ := hs
    simp [hmk, hev]
  · obtain ⟨config, _, _, hl, _⟩ := hs
    exact absurd (lookup_some _ _ hl) h
  · obtain ⟨config, _, _, hl, _⟩ := hs
    exact absurd (lookup_some _ _ hl) h

/-- The theorem `unsupported_language_events` at the identifier `ruby`, with a
failing and with a succeeding `os.MkdirAll`. -/
theorem unsupported_language_events_witness :
    "ruby" ∉ registeredLanguages ∧
    (executeCode (envNoMkdir 5) w0 ⟨"puts 1", "ruby"⟩).events
      = [Event.mkdirAll "/tmp/execution_5" 0o755
          (some "mkdir /tmp/execution_5: read-only file system")] ∧
    (executeCode (envAll 7 "" none) w0 ⟨"puts 1", "ruby"⟩).events
      = [Event.mkdirAll "/tmp/execution_7" 0o755 none, Event.removeAll "/tmp/execution_7"] :=
  ⟨by decide,
    (unsupported_language_events (envNoMkdir 5) w0 ⟨"puts 1", "ruby"⟩ (by decide)).trans
      (by decide),
    (unsupported_language_events (envAll 7 "" none) w0 ⟨"puts 1", "ruby"⟩ (by decide)).trans
      (by decide)⟩

/-! ## The workspace is removed (C3) -/

/-- C3, against the claim: a Python program that leaves an undeletable
directory in its workspace runs to a successful end, the workspace
`/tmp/execution_5` was created by the call, the deferred `os.RemoveAll` is the
last system call, it fails, and the workspace still exists after the call. -/
theorem workspace_survives_failed_removal :
    w0.fs.pathExists "/tmp/execution_5" = false ∧
    (envLocked 5).mkdirAllErr w0.fs (execDirOf (envLocked 5).now) = none ∧
    (executeCode (envLocked 5) w0 ⟨"import os", "python"⟩).events.getLast?
      = some (Event.removeAll "/tmp/execution_5") ∧
    (executeCode (envLocked 5) w0 ⟨"import os", "python"⟩).world.fs.pathExists
      "/tmp/execution_5" = true := by
  decide

/-- C3, as amended: whenever `executeCode` created its workspace directory
`/tmp/execution_<n>`, whatever the language, the code and the way the call
ends, the first system call is the `os.MkdirAll` of that directory and the last
one is its `os.RemoveAll`, run in the filesystem that the rest of the call left
behind; and whenever that `os.RemoveAll` does not fail, neither the directory
nor anything below it exists after the call. -/
theorem workspace_removed (env : Env) (w : World) (code : CodeRequest)
    (h : env.mkdirAllErr w.fs (execDirOf env.now) = none) :
    execDirOf env.now = "/tmp/execution_" ++ sprintfD env.now ∧
    (executeCode env w code).events.head?
      = some (Event.mkdirAll (execDirOf env.now) 0o755 none) ∧
    (executeCode env w code).events.getLast? = some (Event.removeAll (execDirOf env.now)) ∧
    (executeCode env w code).world.fs
      = osRemoveAll env (fsAtRelease env w code) (execDirOf env.now) ∧
    (env.removeAllErr (fsAtRelease env w code) (execDirOf env.now) = none →
      (executeCode env w code).world.fs.pathExists (execDirOf env.now) = false ∧
      ∀ q, pathUnder (execDirOf env.now) q = true →
        (executeCode env w code).world.fs.pathExists q = false) := by
  refine ⟨execDirOf_eq env.now, ?_, ?_, ?_, ?_⟩
  · simp [executeCode, h]
  · simp only [executeCode, h]
    rw [← List.cons_append, List.getLast?_concat]
  · simp only [executeCode, h, fsAtRelease]
  · intro hrm
    have hfs : (executeCode env w code).world.fs
        = (fsAtRelease env w code).removeAll (execDirOf env.now) := by
      simp only [executeCode, h, fsAtRelease, osRemoveAll] at hrm ⊢
      simp only [hrm]
    rw [hfs]
    exact ⟨removeAll_pathExists _ _ _ (pathUnder_self _),
      fun q hq => removeAll_pathExists _ _ _ hq⟩

/-- The theorem `workspace_removed` at a C++ request whose build leaves
`a.out` in the workspace, on a filesystem where the workspace name is already
taken by a stale directory: the removal does not fail, and the directory, the
source, the artifact and the stale file are all gone at the end. -/
theorem workspace_removed_witness :
    (envWarn 5 "hi\n").mkdirAllErr fsStale (execDirOf (envWarn 5 "hi\n").now) = none ∧
    (envWarn 5 "hi\n").removeAllErr
        (fsAtRelease (envWarn 5 "hi\n") { fs := fsStale, nextCtx := 0 } ⟨"int main()", "cpp"⟩)
        (execDirOf (envWarn 5 "hi\n").now) = none ∧
    (fsAtRelease (envWarn 5 "hi\n") { fs := fsStale, nextCtx := 0 }
        ⟨"int main()", "cpp"⟩).pathExists "/tmp/execution_5/a.out" = true ∧
    (executeCode (envWarn 5 "hi\n") { fs := fsStale, nextCtx := 0 }
        ⟨"int main()", "cpp"⟩).world.fs.pathExists "/tmp/execution_5" = false ∧
    (executeCode (envWarn 5 "hi\n") { fs := fsStale, nextCtx := 0 }
        ⟨"int main()", "cpp"⟩).world.fs = { dirs := ["/tmp"], files := [] } :=
  ⟨rfl, rfl, by decide,
    ((workspace_removed (envWarn 5 "hi\n") { fs := fsStale, nextCtx := 0 }
      ⟨"int main()", "cpp"⟩ rfl).2.2.2.2 rfl).1,
    by decide⟩

/-! ## The response (C4, C5, C6, C7) -/

theorem response_run_failed (r : Recipe) (env : Env) (fs : FS) (e : String)
    (hb : r.buildOk env fs = true) (hrun : (r.runResult env fs).err = some e) :
    r.response env fs
      = { Output := "", Error := executionError e (r.runResult env fs).output } := by
  unfold Recipe.response
  unfold Recipe.buildOk at hb
  unfold Recipe.runResult Recipe.fsBeforeRun at hrun ⊢
  cases hbuild : r.build with
  | none => simp only [hbuild] at hrun ⊢; simp [hrun]
  | some c =>
    simp only [hbuild, Option.isNone_iff_eq_none] at hb hrun ⊢
    simp [hb, hrun]

theorem response_run_ok (r : Recipe) (env : Env) (fs : FS)
    (hb : r.buildOk env fs = true) (hrun : (r.runResult env fs).err = none) :
    r.response env fs = { Output := (r.runResult env fs).output, Error := "" } := by
  unfold Recipe.response
  unfold Recipe.buildOk at hb
  unfold Recipe.runResult Recipe.fsBeforeRun at hrun ⊢
  cases hbuild : r.build with
  | none => simp only [hbuild] at hrun ⊢; simp [hrun]
  | some c =>
    simp only [hbuild, Option.isNone_iff_eq_none] at hb hrun ⊢
    simp [hb, hrun]

theorem response_build_failed (r : Recipe) (env : Env) (fs : FS) (c : Cmd) (e : String)
    (hbuild : r.build = some c) (hfail : (env.run c fs).err = some e) :
    r.response env fs = { Output := "", Error := compilationError e (env.run c fs).output } ∧
    r.spawned env fs = [(Step.build, c)] := by
  unfold Recipe.response Recipe.spawned
  simp [hbuild, hfail]

theorem buildOk_false (r : Recipe) (env : Env) (fs : FS) (h : r.buildOk env fs = false) :
    ∃ c e, r.build = some c ∧ (env.run c fs).err = some e := by
  unfold Recipe.buildOk at h
  cases hbuild : r.build with
  | none => simp [hbuild] at h
  | some c =>
    simp only [hbuild] at h
    cases herr : (env.run c fs).err with
    | none => simp [herr] at h
    | some e => exact ⟨c, e, rfl, herr⟩

/-- C4, against the claim: a Python program that prints nothing and exits with
status 0 gets the response with both `Output` and `Error` empty. -/
theorem empty_response_on_silent_success :
    (executeCode (envAll 5 "" none) w0 ⟨"x = 1", "python"⟩).resp
      = { Output := "", Error := "" } := by
  decide

/-- C4, as amended: the response of `executeCode` has `Output` and `Error` both
empty exactly when the language is registered, the workspace directory is
created, the source is written, the build step (where the language has one)
ends without error, and the process of the run step ends without error having
printed nothing; in every other case (directory or file failure, unsupported
language, build failure, run failure, run success with output) one of the two
fields is non-empty. -/
theorem response_empty_iff (env : Env) (w : World) (code : CodeRequest) :
    ((executeCode env w code).resp.Output = "" ∧ (executeCode env w code).resp.Error = "") ↔
      ∃ recipe, recipeTable code.Language (callCtx w) (execDirOf env.now) = some recipe ∧
        env.mkdirAllErr w.fs (execDirOf env.now) = none ∧
        env.writeFileErr (w.fs.mkdirAll (execDirOf env.now)) recipe.source code.Code = none ∧
        recipe.buildOk env (fsReady w (execDirOf env.now) recipe code.Code) = true ∧
        (recipe.runResult env (fsReady w (execDirOf env.now) recipe code.Code)).err = none ∧
        (recipe.runResult env (fsReady w (execDirOf env.now) recipe code.Code)).output = "" := by
  constructor
  · intro hempty
    cases hmk : env.mkdirAllErr w.fs (execDirOf env.now) with
    | some err =>
      rw [executeCode_mkdir_fails env w code err hmk] at hempty
      exact absurd hempty.2 (by decide)
    | none =>
      by_cases hl : code.Language ∈ registeredLanguages
      · obtain ⟨recipe, hrec⟩ := recipeTable_registered code.Language (callCtx w)
          (execDirOf env.now) hl
        cases hwr : env.writeFileErr (w.fs.mkdirAll (execDirOf env.now)) recipe.source
            code.Code with
        | some err =>
          rw [executeCode_write_fails env w code recipe err hrec hmk hwr] at hempty
          exact absurd hempty.2 (by decide)
        | none =>
          rw [(executeCode_recipe env w code recipe hrec hmk hwr).1] at hempty
          refine ⟨recipe, hrec, rfl, hwr, ?_⟩
          cases hb : recipe.buildOk env (fsReady w (execDirOf env.now) recipe code.Code) with
          | false =>
            obtain ⟨c, e, hbuild, hfail⟩ := buildOk_false _ _ _ hb
            rw [(response_build_failed _ _ _ c e hbuild hfail).1] at hempty
            exact absurd hempty.2 (compilationError_ne_empty _ _)
          | true =>
            cases hrun : (recipe.runResult env
                (fsReady w (execDirOf env.now) recipe code.Code)).err with
            | some e =>
              rw [response_run_failed _ _ _ e hb hrun] at hempty
              exact absurd hempty.2 (executionError_ne_empty _ _)
            | none =>
              rw [response_run_ok _ _ _ hb hrun] at hempty
              exact ⟨rfl, rfl, hempty.1⟩
      · rw [executeCode_unregistered env w code hmk hl] at hempty
        exact absurd hempty.2 (by decide)
  · rintro ⟨recipe, hrec, hmk, hwr, hb, hrun, hout⟩
    rw [(executeCode_recipe env w code recipe hrec hmk hwr).1, response_run_ok _ _ _ hb hrun]
    exact ⟨hout, rfl⟩

/-- C5: for every registered language, with the workspace set up and the build
step (where the language has one) ended without error, whenever the process of
the run step ends with the error `e`, `executeCode` returns `Output = ""` and
`Error = "Execution error: " ++ e ++ "\n" ++ out`, where `out` is the output
that the process printed. -/
theorem run_failure_response (env : Env) (w : World) (code : CodeRequest) (recipe : Recipe)
    (e : String)
    (hrec : recipeTable code.Language (callCtx w) (execDirOf env.now) = some recipe)
    (hmk : env.mkdirAllErr w.fs (execDirOf env.now) = none)
    (hwr : env.writeFileErr (w.fs.mkdirAll (execDirOf env.now)) recipe.source code.Code = none)
    (hb : recipe.buildOk env (fsReady w (execDirOf env.now) recipe code.Code) = true)
    (hrun : (recipe.runResult env (fsReady w (execDirOf env.now) recipe code.Code)).err
      = some e) :
    (executeCode env w code).resp =
      { Output := "",
        Error := "Execution error: " ++ e ++ "\n" ++
          (recipe.runResult env (fsReady w (execDirOf env.now) recipe code.Code)).output } := by
  rw [(executeCode_recipe env w code recipe hrec hmk hwr).1, response_run_failed _ _ _ e hb hrun]
  rfl

/-- The theorem `run_failure_response` at a Java program and at a Python
program whose run prints `partial` and then exits with status 1. -/
theorem run_failure_response_witness :
    recipeTable "java" (callCtx w0) (execDirOf (envRunFails 5).now) = some javaAt5 ∧
    (javaAt5.runResult (envRunFails 5)
      (fsReady w0 (execDirOf (envRunFails 5).now) javaAt5 "class Main")).err
        = some "exit status 1" ∧
    (executeCode (envRunFails 5) w0 ⟨"class Main", "java"⟩).resp =
      { Output := "", Error := "Execution error: exit status 1\npartial" } ∧
    (executeCode (envRunFails 5) w0 ⟨"print(1)", "python"⟩).resp =
      { Output := "", Error := "Execution error: exit status 1\npartial" } :=
  ⟨by decide, by decide,
    (run_failure_response (envRunFails 5) w0 ⟨"class Main", "java"⟩ javaAt5 "exit status 1"
      (by decide) (by decide) (by decide) (by decide) (by decide)).trans (by decide),
    (run_failure_response (envRunFails 5) w0 ⟨"print(1)", "python"⟩ pythonAt5 "exit status 1"
      (by decide) (by decide) (by decide) (by decide) (by decide)).trans (by decide)⟩

/-- C6: for a language with a build step, which are cpp and java, with the
workspace set up, whenever the process of the build step ends with the error
`e`, `executeCode` returns `Output = ""` and
`Error = "Compilation error: " ++ e ++ "\n" ++ out`, where `out` is the output
that the build process printed, and the build process is the only process
spawned. -/
theorem build_failure_response (env : Env) (w : World) (code : CodeRequest) (recipe : Recipe)
    (c : Cmd) (e : String)
    (hrec : recipeTable code.Language (callCtx w) (execDirOf env.now) = some recipe)
    (hmk : env.mkdirAllErr w.fs (execDirOf env.now) = none)
    (hwr : env.writeFileErr (w.fs.mkdirAll (execDirOf env.now)) recipe.source code.Code = none)
    (hbuild : recipe.build = some c)
    (hfail : (env.run c (fsReady w (execDirOf env.now) recipe code.Code)).err = some e) :
    (executeCode env w code).resp =
      { Output := "",
        Error := "Compilation error: " ++ e ++ "\n" ++
          (env.run c (fsReady w (execDirOf env.now) recipe code.Code)).output } ∧
    spawned (executeCode env w code).events = [(Step.build, c)] ∧
    (code.Language = "cpp" ∨ code.Language = "java") := by
  have hm := executeCode_recipe env w code recipe hrec hmk hwr
  have hr := response_build_failed recipe env _ c e hbuild hfail
  refine ⟨?_, ?_, ?_⟩
  · rw [hm.1, hr.1]; rfl
  · rw [hm.2, hr.2]
  · unfold recipeTable at hrec
    split_ifs at hrec with h1 h2 h3 h4
    · simp only [Option.some.injEq] at hrec; subst hrec; simp at hbuild
    · simp only [Option.some.injEq] at hrec; subst hrec; simp at hbuild
    · exact Or.inr h3
    · exact Or.inl h4

/-- The theorem `build_failure_response` at a C++ program that `g++` rejects
and at a Java program that `javac` rejects. -/
theorem build_failure_response_witness :
    recipeTable "cpp" (callCtx w0) (execDirOf (envBuildFails 5).now) = some cppAt5 ∧
    cppAt5.build = some gppAt5 ∧
    ((envBuildFails 5).run gppAt5
      (fsReady w0 (execDirOf (envBuildFails 5).now) cppAt5 "int main() return 0")).err
        = some "exit status 1" ∧
    (executeCode (envBuildFails 5) w0 ⟨"int main() return 0", "cpp"⟩).resp =
      { Output := "", Error := "Compilation error: exit status 1\nerror: expected ;\n" } ∧
    spawned (executeCode (envBuildFails 5) w0 ⟨"int main() return 0", "cpp"⟩).events
      = [(Step.build, gppAt5)] ∧
    (executeCode (envBuildFails 5) w0 ⟨"class Main", "java"⟩).resp =
      { Output := "", Error := "Compilation error: exit status 1\nerror: expected ;\n" } ∧
    spawned (executeCode (envBuildFails 5) w0 ⟨"class Main", "java"⟩).events
      = [(Step.build, javacAt5)] :=
  ⟨by decide, by decide, by decide,
    (build_failure_response (envBuildFails 5) w0 ⟨"int main() return 0", "cpp"⟩ cppAt5 gppAt5
      "exit status 1" (by decide) (by decide) (by decide) (by decide) (by decide)).1.trans
      (by decide),
    (build_failure_response (envBuildFails 5) w0 ⟨"int main() return 0", "cpp"⟩ cppAt5 gppAt5
      "exit status 1" (by decide) (by decide) (by decide) (by decide) (by decide)).2.1,
    (build_failure_response (envBuildFails 5) w0 ⟨"class Main", "java"⟩ javaAt5 javacAt5
      "exit status 1" (by decide) (by decide) (by decide) (by decide) (by decide)).1.trans
      (by decide),
    (build_failure_response (envBuildFails 5) w0 ⟨"class Main", "java"⟩ javaAt5 javacAt5
      "exit status 1" (by decide) (by decide) (by decide) (by decide) (by decide)).2.1⟩

/-- C7: for every registered language, when the workspace is set up, the build
step (where the language has one) ends without error and the process of the run
step ends without error, `executeCode` returns `Error = ""` and `Output` equal
to the output that the process of the run step printed, whatever the build
process printed. -/
theorem success_response (env : Env) (w : World) (code : CodeRequest) (recipe : Recipe)
    (hrec : recipeTable code.Language (callCtx w) (execDirOf env.now) = some recipe)
    (hmk : env.mkdirAllErr w.fs (execDirOf env.now) = none)
    (hwr : env.writeFileErr (w.fs.mkdirAll (execDirOf env.now)) recipe.source code.Code = none)
    (hb : recipe.buildOk env (fsReady w (execDirOf env.now) recipe code.Code) = true)
    (hrun : (recipe.runResult env (fsReady w (execDirOf env.now) recipe code.Code)).err
      = none) :
    (executeCode env w code).resp =
      { Output := (recipe.runResult env (fsReady w (execDirOf env.now) recipe code.Code)).output,
        Error := "" } := by
  rw [(executeCode_recipe env w code recipe hrec hmk hwr).1, response_run_ok _ _ _ hb hrun]

/-- The theorem `success_response` at a Java and at a C++ program: the build
prints a warning, the program prints `ok`, and the response has `ok` only. -/
theorem success_response_witness :
    recipeTable "java" (callCtx w0) (execDirOf (envWarn 5 "ok\n").now) = some javaAt5 ∧
    ((envWarn 5 "ok\n").run javacAt5
      (fsReady w0 (execDirOf (envWarn 5 "ok\n").now) javaAt5 "class Main")).output
        = "warning: deprecated\n" ∧
    (javaAt5.runResult (envWarn 5 "ok\n")
      (fsReady w0 (execDirOf (envWarn 5 "ok\n").now) javaAt5 "class Main")).output = "ok\n" ∧
    (executeCode (envWarn 5 "ok\n") w0 ⟨"class Main", "java"⟩).resp
      = { Output := "ok\n", Error := "" } ∧
    (executeCode (envWarn 5 "ok\n") w0 ⟨"int main()", "cpp"⟩).resp
      = { Output := "ok\n", Error := "" } :=
  ⟨by decide, by decide, by decide,
    (success_response (envWarn 5 "ok\n") w0 ⟨"class Main", "java"⟩ javaAt5
      (by decide) (by decide) (by decide) (by decide) (by decide)).trans (by decide),
    (success_response (envWarn 5 "ok\n") w0 ⟨"int main()", "cpp"⟩ cppAt5
      (by decide) (by decide) (by decide) (by decide) (by decide)).trans (by decide)⟩

/-! ## Workspace paths (C8) -/

/-- C8, against the claim: two requests, different in code and language, whose
calls read the same clock value 1700000000000000000 use the same workspace
directory. -/
theorem same_clock_same_workspace :
    workspaceOf (executeCode (envAll 1700000000000000000 "1\n" none) w0
        ⟨"print(1)", "python"⟩).events = some "/tmp/execution_1700000000000000000" ∧
    workspaceOf (executeCode (envAll 1700000000000000000 "2\n" none) w0
        ⟨"console.log(2)", "javascript"⟩).events = some "/tmp/execution_1700000000000000000" ∧
    workspaceOf (executeCode (envAll 1700000000000000000 "1\n" none) w0
        ⟨"print(1)", "python"⟩).events =
      workspaceOf (executeCode (envAll 1700000000000000000 "2\n" none) w0
        ⟨"console.log(2)", "javascript"⟩).events := by
  decide

theorem workspaceOf_executeCode (env : Env) (w : World) (code : CodeRequest) :
    workspaceOf (executeCode env w code).events = some ("/tmp/execution_" ++ sprintfD env.now) := by
  rw [← execDirOf_eq]
  unfold executeCode
  simp only
  split <;> rfl

/-- C8, as amended: two calls of `executeCode` use the same workspace directory
exactly when they read the same arrival time from the clock; calls that read
different times use different directories. -/
theorem workspace_eq_iff (env₁ env₂ : Env) (w₁ w₂ : World) (c₁ c₂ : CodeRequest) :
    workspaceOf (executeCode env₁ w₁ c₁).events = workspaceOf (executeCode env₂ w₂ c₂).events ↔
      env₁.now = env₂.now := by
  rw [workspaceOf_executeCode, workspaceOf_executeCode]
  constructor
  · intro h
    have h1 := congrArg String.data (Option.some.inj h)
    simp only [String.data_append, List.append_cancel_left_eq] at h1
    exact sprintfD_inj _ _ (String.ext h1)
  · intro h
    rw [h]

/-! ## The processes spawned (C9) -/

/-- C9: when no system call of the call fails, the processes spawned for each
registered language, all bound to the context of the call and all with the
workspace directory `d = /tmp/execution_<n>` as working directory, are:
`python3 d/main.py` for python and `node d/main.js` for javascript (one run
step, no build step); `javac d/Main.java` then `java Main` for java;
`g++ d/main.cpp -o a.out` then `d/a.out` without arguments for cpp; and the run
steps of java and cpp, and no other step, are started in a new process group. -/
theorem spawned_table (env : Env) (w : World) (code : CodeRequest)
    (hok : ∀ ev ∈ (executeCode env w code).events, ev.err = none) :
    (code.Language = "python" →
      spawned (executeCode env w code).events =
        [(Step.run,
          { ctx := { id := w.nextCtx, timeout := 10000000000 }, Path := "python3",
            Args := ["python3", "/tmp/execution_" ++ sprintfD env.now ++ "/main.py"],
            Dir := "/tmp/execution_" ++ sprintfD env.now, SysProcAttr := none })]) ∧
    (code.Language = "javascript" →
      spawned (executeCode env w code).events =
        [(Step.run,
          { ctx := { id := w.nextCtx, timeout := 10000000000 }, Path := "node",
            Args := ["node", "/tmp/execution_" ++ sprintfD env.now ++ "/main.js"],
            Dir := "/tmp/execution_" ++ sprintfD env.now, SysProcAttr := none })]) ∧
    (code.Language = "java" →
      spawned (executeCode env w code).events =
        [(Step.build,
          { ctx := { id := w.nextCtx, timeout := 10000000000 }, Path := "javac",
            Args := ["javac", "/tmp/execution_" ++ sprintfD env.now ++ "/Main.java"],
            Dir := "/tmp/execution_" ++ sprintfD env.now, SysProcAttr := none }),
         (Step.run,
          { ctx := { id := w.nextCtx, timeout := 10000000000 }, Path := "java",
            Args := ["java", "Main"],
            Dir := "/tmp/execution_" ++ sprintfD env.now,
            SysProcAttr := some { Setpgid := true, Pgid := 0 } })]) ∧
    (code.Language = "cpp" →
      spawned (executeCode env w code).events =
        [(Step.build,
          { ctx := { id := w.nextCtx, timeout := 10000000000 }, Path := "g++",
            Args := ["g++", "/tmp/execution_" ++ sprintfD env.now ++ "/main.cpp", "-o", "a.out"],
            Dir := "/tmp/execution_" ++ sprintfD env.now, SysProcAttr := none }),
         (Step.run,
          { ctx := { id := w.nextCtx, timeout := 10000000000 },
            Path := "/tmp/execution_" ++ sprintfD env.now ++ "/a.out",
            Args := ["/tmp/execution_" ++ sprintfD env.now ++ "/a.out"],
            Dir := "/tmp/execution_" ++ sprintfD env.now,
            SysProcAttr := some { Setpgid := true, Pgid := 0 } })]) := by
  have hd := execDirOf_eq env.now
  have hpy : filepathJoin [execDirOf env.now, "main.py"] = execDirOf env.now ++ "/main.py" := by
    rw [codePath_eq env.now "main.py" (by decide) (by decide) (by decide), String.append_assoc]
    rfl
  have hjs : filepathJoin [execDirOf env.now, "main.js"] = execDirOf env.now ++ "/main.js" := by
    rw [codePath_eq env.now "main.js" (by decide) (by decide) (by decide), String.append_assoc]
    rfl
  have hjava : filepathJoin [execDirOf env.now, "Main.java"]
      = execDirOf env.now ++ "/Main.java" := by
    rw [codePath_eq env.now "Main.java" (by decide) (by decide) (by decide), String.append_assoc]
    rfl
  have hcpp : filepathJoin [execDirOf env.now, "main.cpp"] = execDirOf env.now ++ "/main.cpp" := by
    rw [codePath_eq env.now "main.cpp" (by decide) (by decide) (by decide), String.append_assoc]
    rfl
  have hart := artifactPath_eq env.now
  rw [← hd]
  obtain ⟨src, lang⟩ := code
  refine ⟨?_, ?_, ?_, ?_⟩
  · intro hlang
    simp only at hlang
    subst hlang
    generalize hr : executeCode env w ⟨src, "python"⟩ = r at hok ⊢
    unfold executeCode executeInDir executeSteps at hr
    have hlk : languageConfigs.lookup "python" = some
      { Compiler := "python3", Filename := "main.py", RunCmd := "python3",
        BuildArgs := ["-c", "import py_compile; py_compile.compile(\x27\x7b\x7d\x27)"] } := by
      decide
    simp only [hlk] at hr
    repeat' split at hr
    all_goals subst hr
    all_goals simp_all [spawned, Event.err, commandContext, timeSecond]
  · intro hlang
    simp only at hlang
    subst hlang
    generalize hr : executeCode env w ⟨src, "javascript"⟩ = r at hok ⊢
    unfold executeCode executeInDir executeSteps at hr
    have hlk : languageConfigs.lookup "javascript" = some
      { Compiler := "node", Filename := "main.js", RunCmd := "node", BuildArgs := [] } := by
      decide
    simp only [hlk] at hr
    repeat' split at hr
    all_goals subst hr
    all_goals simp_all [spawned, Event.err, commandContext, timeSecond]
  · intro hlang
    simp only at hlang
    subst hlang
    generalize hr : executeCode env w ⟨src, "java"⟩ = r at hok ⊢
    unfold executeCode executeInDir executeSteps at hr
    have hlk : languageConfigs.lookup "java" = some
      { Compiler := "javac", Filename := "Main.java", RunCmd := "java", BuildArgs := [],
        MainClass := "Main" } := by
      decide
    simp only [hlk] at hr
    repeat' split at hr
    all_goals subst hr
    all_goals simp_all [spawned, Event.err, commandContext, timeSecond]
  · intro hlang
    simp only at hlang
    subst hlang
    generalize hr : executeCode env w ⟨src, "cpp"⟩ = r at hok ⊢
    unfold executeCode executeInDir executeSteps at hr
    have hlk : languageConfigs.lookup "cpp" = some
      { Compiler := "g++", Filename := "main.cpp", RunCmd := "./a.out",
        BuildArgs := ["-o", "a.out"] } := by
      decide
    simp only [hlk] at hr
    repeat' split at hr
    all_goals subst hr
    all_goals simp_all [spawned, Event.err, commandContext, timeSecond, replace_dash_o,
      replace_a_out]

/-- The theorem `spawned_table` at a C++ program that builds and runs. -/
theorem spawned_table_witness :
    (∀ ev ∈ (executeCode (envWarn 5 "ok\n") w0 ⟨"int main()", "cpp"⟩).events,
      ev.err = none) ∧
    spawned (executeCode (envWarn 5 "ok\n") w0 ⟨"int main()", "cpp"⟩).events =
      [(Step.build,
        { ctx := { id := 0, timeout := 10000000000 }, Path := "g++",
          Args := ["g++", "/tmp/execution_5/main.cpp", "-o", "a.out"],
          Dir := "/tmp/execution_5", SysProcAttr := none }),
       (Step.run,
        { ctx := { id := 0, timeout := 10000000000 },
          Path := "/tmp/execution_5/a.out",
          Args := ["/tmp/execution_5/a.out"],
          Dir := "/tmp/execution_5",
          SysProcAttr := some { Setpgid := true, Pgid := 0 } })] :=
  ⟨by decide,
    (spawned_table (envWarn 5 "ok\n") w0 ⟨"int main()", "cpp"⟩ (by decide)).2.2.2 rfl⟩

/-! ## The deadline (C10) -/

/-- C10: in every call of `executeCode` that spawns a process, one deadline is
established, of 10 seconds (10000000000 nanoseconds), it is established before
the first process is spawned, and every process spawned in the call, build step
and run step alike, is bound to the context of that deadline. -/
theorem one_deadline (env : Env) (w : World) (code : CodeRequest)
    (h : spawned (executeCode env w code).events ≠ []) :
    ∃ ctx : Context, ctx.timeout = 10000000000 ∧
      deadlines (executeCode env w code).events = [ctx] ∧
      (∀ sc ∈ spawned (executeCode env w code).events, sc.2.ctx = ctx) ∧
      ∃ pre post, (executeCode env w code).events = pre ++ Event.withTimeout ctx :: post ∧
        spawned pre = [] := by
  rcases executeCode_shape env w code with hs | hs | hs | hs
  · obtain ⟨err, _, hev, hresp, _⟩ := hs
    simp [hev, spawned] at h
  · obtain ⟨_, _, hev, hresp⟩ := hs
    simp [hev, spawned] at h
  · obtain ⟨config, err, _, _, hev, hresp⟩ := hs
    simp [hev, spawned] at h
  · obtain ⟨config, s, _, _, hshape, hev, hresp⟩ := hs
    refine ⟨{ id := w.nextCtx, timeout := 10 * timeSecond }, by simp [timeSecond], ?_, ?_,
      [Event.mkdirAll (execDirOf env.now) 0o755 none,
        Event.writeFile (filepathJoin [execDirOf env.now, config.Filename]) code.Code 0o644 none],
      s.events ++ [Event.cancel { id := w.nextCtx, timeout := 10 * timeSecond },
          Event.removeAll (execDirOf env.now)], by simp [hev], by simp [spawned]⟩
    · rcases hshape with h1 | h1 | h1 | h1 | h1
      · obtain ⟨c, o, e, hse, _⟩ := h1
        simp [hev, hse, deadlines]
      · obtain ⟨c, o, hse, _⟩ := h1
        simp [hev, hse, deadlines]
      · obtain ⟨c, o, e, hse, _⟩ := h1
        simp [hev, hse, deadlines]
      · obtain ⟨b, bo, c, o, e, hse, _⟩ := h1
        simp [hev, hse, deadlines]
      · obtain ⟨b, bo, c, o, hse, _⟩ := h1
        simp [hev, hse, deadlines]
    · rcases hshape with h1 | h1 | h1 | h1 | h1
      · obtain ⟨c, o, e, hse, _, hc⟩ := h1
        simp [hev, hse, spawned, hc]
      · obtain ⟨c, o, hse, _, hc⟩ := h1
        simp [hev, hse, spawned, hc]
      · obtain ⟨c, o, e, hse, _, hc, _⟩ := h1
        simp [hev, hse, spawned, hc]
      · obtain ⟨b, bo, c, o, e, hse, _, hb, hc⟩ := h1
        simp [hev, hse, spawned, hb, hc]
      · obtain ⟨b, bo, c, o, hse, _, hb, hc⟩ := h1
        simp [hev, hse, spawned, hb, hc]

/-- The theorem `one_deadline` at a Java program that builds and runs. -/
theorem one_deadline_witness :
    spawned (executeCode (envWarn 5 "ok\n") w0 ⟨"class Main", "java"⟩).events ≠ [] ∧
    ∃ ctx : Context, ctx.timeout = 10000000000 ∧
      deadlines (executeCode (envWarn 5 "ok\n") w0 ⟨"class Main", "java"⟩).events = [ctx] ∧
      (∀ sc ∈ spawned (executeCode (envWarn 5 "ok\n") w0 ⟨"class Main", "java"⟩).events,
        sc.2.ctx = ctx) ∧
      ∃ pre post,
        (executeCode (envWarn 5 "ok\n") w0 ⟨"class Main", "java"⟩).events
          = pre ++ Event.withTimeout ctx :: post ∧
        spawned pre = [] :=
  ⟨by decide, one_deadline (envWarn 5 "ok\n") w0 ⟨"class Main", "java"⟩ (by decide)⟩

end LangCompiler
